import Mathlib

/-!
Shallow embedding of the rhythm-app timing and scoring core
(src/lib/noteScheduler.ts, src/lib/scoring.ts, src/lib/metronome.ts).

Times are modelled as rationals (seconds on the AudioContext clock),
pattern cells as `Option String` (TypeScript `string | null`), and the
JavaScript `Map` / `Set` used by the scorer as association lists.
Index-based `for` loops are translated to index-carrying structural
recursion over the underlying list.
-/

namespace Rhythm

/-- Subdivision of the beat, the keys of `NOTES_PER_BEAT`
(src/lib/noteScheduler.ts lines 7-12). -/
inductive Subdivision where
  | quarter
  | eighth
  | sixteenth
  | eighthTriplet
deriving DecidableEq

/-- Notes per beat for each subdivision (src/lib/noteScheduler.ts lines 7-12). -/
def NOTES_PER_BEAT : Subdivision → ℕ
  | .quarter => 1
  | .eighth => 2
  | .sixteenth => 4
  | .eighthTriplet => 3

/-- `stepSeconds(bpm, subdivision)`: step = (60 / bpm) / notesPerBeat. -/
def stepSeconds (bpm : ℚ) (subdivision : Subdivision) : ℚ :=
  (60 / bpm) / (NOTES_PER_BEAT subdivision : ℚ)

/-- `getCycleDurationSeconds(bpm, subdivision, patternLength)` =
patternLength * stepSeconds. -/
def getCycleDurationSeconds (bpm : ℚ) (subdivision : Subdivision)
    (patternLength : ℕ) : ℚ :=
  (patternLength : ℚ) * stepSeconds bpm subdivision

/-- `getExpectedHitTimes(startTime, bpm, subdivision, patternLength)`:
times[i] = startTime + i * step for i in 0..patternLength. -/
def getExpectedHitTimes (startTime bpm : ℚ) (subdivision : Subdivision)
    (patternLength : ℕ) : List ℚ :=
  (List.range patternLength).map
    (fun i : ℕ => startTime + (i : ℚ) * stepSeconds bpm subdivision)

/-- A pattern cell counts as a stroke exactly when it is "L" or "R"
(the test in src/lib/noteScheduler.ts line 72). -/
def isStroke (c : Option String) : Bool :=
  c == some "L" || c == some "R"

/-- A cell that makes `hasRests` true in `getExpectedHitTimesForRudiment`
(src/lib/noteScheduler.ts line 89): empty string or null/undefined. -/
def isRestCell (c : Option String) : Bool :=
  c == some "" || c == none

/-- The loop of `getExpectedHitTimesFromPattern`: walk the pattern with
its grid index `i`; emit `startTime + i * step` for "L"/"R" cells only. -/
def expectedTimesFromPatternAux (startTime step : ℚ) :
    ℕ → List (Option String) → List ℚ
  | _, [] => []
  | i, c :: rest =>
    if isStroke c then
      (startTime + (i : ℚ) * step) :: expectedTimesFromPatternAux startTime step (i + 1) rest
    else
      expectedTimesFromPatternAux startTime step (i + 1) rest

/-- `getExpectedHitTimesFromPattern(startTime, bpm, subdivision, pattern)`
(src/lib/noteScheduler.ts lines 62-77). -/
def getExpectedHitTimesFromPattern (startTime bpm : ℚ)
    (subdivision : Subdivision) (pattern : List (Option String)) : List ℚ :=
  expectedTimesFromPatternAux startTime (stepSeconds bpm subdivision) 0 pattern

/-- The `{ subdivision, pattern }` rudiment shape consumed by the
note scheduler (src/lib/noteScheduler.ts lines 86, 102). -/
structure RudimentShape where
  subdivision : Subdivision
  pattern : List (Option String)

/-- `getExpectedHitTimesForRudiment(startTime, bpm, rudiment)`:
if the pattern has any "" or null cell, use the rest-aware generator,
otherwise one time per cell (src/lib/noteScheduler.ts lines 83-94). -/
def getExpectedHitTimesForRudiment (startTime bpm : ℚ)
    (r : RudimentShape) : List ℚ :=
  if r.pattern.any isRestCell then
    getExpectedHitTimesFromPattern startTime bpm r.subdivision r.pattern
  else
    getExpectedHitTimes startTime bpm r.subdivision r.pattern.length

/-- `getExpectedHitTimesForRudimentCycles(startTime, bpm, rudiment, cycleCount)`
(src/lib/noteScheduler.ts lines 99-114). -/
def getExpectedHitTimesForRudimentCycles (startTime bpm : ℚ)
    (r : RudimentShape) (cycleCount : ℕ) : List ℚ :=
  let cycleDuration := getCycleDurationSeconds bpm r.subdivision r.pattern.length
  (List.range cycleCount).flatMap
    (fun c : ℕ => getExpectedHitTimesForRudiment (startTime + (c : ℚ) * cycleDuration) bpm r)

/-! ## Scoring (src/lib/scoring.ts) -/

/-- `HitAccuracy = "perfect" | "good" | "miss"`. -/
inductive HitAccuracy where
  | perfect
  | good
  | miss
deriving DecidableEq

/-- `HitResult` (src/lib/scoring.ts lines 18-29). -/
structure HitResult where
  index : ℕ
  expectedTime : ℚ
  tapTime : Option ℚ
  offsetMs : Option ℚ
  accuracy : HitAccuracy
deriving DecidableEq

/-- `ScoringThresholds` (src/lib/scoring.ts lines 31-36). -/
structure ScoringThresholds where
  perfectThresholdMs : ℚ
  goodThresholdMs : ℚ
deriving DecidableEq

/-- `DEFAULT_THRESHOLDS = { perfectThresholdMs: 50, goodThresholdMs: 100 }`. -/
def DEFAULT_THRESHOLDS : ScoringThresholds :=
  { perfectThresholdMs := 50, goodThresholdMs := 100 }

/-- `PERFECT_RATIO = 0.02` (src/lib/scoring.ts line 43). -/
def PERFECT_RATIO : ℚ := 0.02

/-- `GOOD_RATIO = 0.05` (src/lib/scoring.ts line 44). -/
def GOOD_RATIO : ℚ := 0.05

/-- `getThresholdsForBpm(bpm)`: beatMs = 60000 / bpm; perfect and good are
ratios of the beat (src/lib/scoring.ts lines 51-57). -/
def getThresholdsForBpm (bpm : ℚ) : ScoringThresholds :=
  let beatMs := 60000 / bpm
  { perfectThresholdMs := PERFECT_RATIO * beatMs
    goodThresholdMs := GOOD_RATIO * beatMs }

/-- `classifyOffset(offsetMs, thresholds)` (src/lib/scoring.ts lines 63-71). -/
def classifyOffset (offsetMs : ℚ) (thresholds : ScoringThresholds) : HitAccuracy :=
  if |offsetMs| ≤ thresholds.perfectThresholdMs then .perfect
  else if |offsetMs| ≤ thresholds.goodThresholdMs then .good
  else .miss

/-- `ASSIGNMENT_WINDOW_MS = 150` (src/lib/scoring.ts line 74). -/
def ASSIGNMENT_WINDOW_MS : ℚ := 150

/-- A candidate pair `{ tapIdx, expectedIdx, distanceMs }`
(src/lib/scoring.ts line 91). -/
structure Pair where
  tapIdx : ℕ
  expectedIdx : ℕ
  distanceMs : ℚ
deriving DecidableEq

/-- Inner loop of the pair-building pass of `scoreSession`
(src/lib/scoring.ts lines 96-103): one tap against every expected time. -/
def buildPairsInner (tapIdx : ℕ) (tapTime : ℚ) :
    ℕ → List ℚ → List Pair
  | _, [] => []
  | e, expectedTime :: rest =>
    if |tapTime - expectedTime| ≤ ASSIGNMENT_WINDOW_MS / 1000 then
      ⟨tapIdx, e, |tapTime - expectedTime| * 1000⟩ :: buildPairsInner tapIdx tapTime (e + 1) rest
    else
      buildPairsInner tapIdx tapTime (e + 1) rest

/-- Outer loop of the pair-building pass of `scoreSession`
(src/lib/scoring.ts lines 94-104): every tap in turn. -/
def buildPairsOuter (expectedTimes : List ℚ) : ℕ → List ℚ → List Pair
  | _, [] => []
  | t, tapTime :: rest =>
    buildPairsInner t tapTime 0 expectedTimes ++ buildPairsOuter expectedTimes (t + 1) rest

/-- All candidate pairs within the assignment window
(src/lib/scoring.ts lines 94-104). -/
def buildPairs (tapTimes expectedTimes : List ℚ) : List Pair :=
  buildPairsOuter expectedTimes 0 tapTimes

/-- `pairs.sort((a, b) => a.distanceMs - b.distanceMs)`: a stable sort by
ascending distance (src/lib/scoring.ts line 106). -/
def sortPairs (pairs : List Pair) : List Pair :=
  List.insertionSort (fun a b => a.distanceMs ≤ b.distanceMs) pairs

/-- Lookup in an association list, modelling `Map.get` / `Map.has` on the
`expectedToTap` map of `scoreSession`. -/
def lookupAssoc (k : ℕ) : List (ℕ × ℕ) → Option ℕ
  | [] => none
  | (k', v) :: rest => if k' = k then some v else lookupAssoc k rest

/-- The greedy assignment loop of `scoreSession`
(src/lib/scoring.ts lines 108-115): walk the sorted pairs; accept a pair
only if neither its tap nor its expected index is already used.
`tapAssigned` models the `Set`, `expectedToTap` the `Map`. -/
def greedyAssign : List Pair → List ℕ → List (ℕ × ℕ) → List (ℕ × ℕ)
  | [], _, expectedToTap => expectedToTap
  | p :: rest, tapAssigned, expectedToTap =>
    if p.tapIdx ∈ tapAssigned ∨ (lookupAssoc p.expectedIdx expectedToTap).isSome then
      greedyAssign rest tapAssigned expectedToTap
    else
      greedyAssign rest (p.tapIdx :: tapAssigned) ((p.expectedIdx, p.tapIdx) :: expectedToTap)

/-- The result-building loop of `scoreSession`
(src/lib/scoring.ts lines 119-145): one `HitResult` per expected time,
walked with its index `i`. -/
def scoreLoop (tapTimes : List ℚ) (expectedToTap : List (ℕ × ℕ))
    (thresholds : ScoringThresholds) : ℕ → List ℚ → List HitResult
  | _, [] => []
  | i, expectedTime :: rest =>
    (match lookupAssoc i expectedToTap with
      | none =>
        { index := i, expectedTime := expectedTime, tapTime := none
          offsetMs := none, accuracy := .miss }
      | some tapIdx =>
        let tapTime := tapTimes.getD tapIdx 0
        let offsetMs := (tapTime - expectedTime) * 1000
        { index := i, expectedTime := expectedTime, tapTime := some tapTime
          offsetMs := some offsetMs, accuracy := classifyOffset offsetMs thresholds })
      :: scoreLoop tapTimes expectedToTap thresholds (i + 1) rest

/-- `scoreSession(tapTimes, expectedTimes, thresholds)`
(src/lib/scoring.ts lines 84-148). -/
def scoreSession (tapTimes expectedTimes : List ℚ)
    (thresholds : ScoringThresholds) : List HitResult :=
  let pairs := sortPairs (buildPairs tapTimes expectedTimes)
  let expectedToTap := greedyAssign pairs [] []
  scoreLoop tapTimes expectedToTap thresholds 0 expectedTimes

/-! ## Metronome beat scheduler (src/lib/metronome.ts) -/

/-- `LOOKAHEAD_SEC = 0.2` (src/lib/metronome.ts line 226). -/
def LOOKAHEAD_SEC : ℚ := 0.2

/-- The catch-up loop of `scheduleBeats` (src/lib/metronome.ts lines 326-329):
while nextBeatTime < bound, advance time by one beat and bump the index,
emitting nothing. `bound` stands for `now - beatDuration * 0.5`. The loop
terminates only for a positive beat duration, hence the hypothesis. -/
def catchUpBeats (bound beatDuration : ℚ) (hbd : 0 < beatDuration)
    (nextBeatTime : ℚ) (beatIndex : ℕ) : ℚ × ℕ :=
  if nextBeatTime < bound then
    catchUpBeats bound beatDuration hbd (nextBeatTime + beatDuration) (beatIndex + 1)
  else
    (nextBeatTime, beatIndex)
termination_by (⌈(bound - nextBeatTime) / beatDuration⌉).toNat
decreasing_by
  have hx : (0 : ℚ) < (bound - nextBeatTime) / beatDuration := by
    apply div_pos _ hbd
    linarith
  have harg : (bound - (nextBeatTime + beatDuration)) / beatDuration
      = (bound - nextBeatTime) / beatDuration - 1 := by
    field_simp
    ring
  rw [harg, Int.ceil_sub_one]
  have h1 : 0 < ⌈(bound - nextBeatTime) / beatDuration⌉ := Int.ceil_pos.mpr hx
  omega

/-- The fill loop of `scheduleBeats` (src/lib/metronome.ts lines 331-336):
while nextBeatTime < bound, emit one click scheduled at nextBeatTime
(accented iff beatIndex % 4 == 0) and advance. `bound` stands for
`now + LOOKAHEAD_SEC`. Returns the emitted clicks in order together with
the final (nextBeatTime, beatIndex) state. -/
def fillBeats (bound beatDuration : ℚ) (hbd : 0 < beatDuration)
    (nextBeatTime : ℚ) (beatIndex : ℕ) : List (ℚ × Bool) × ℚ × ℕ :=
  if nextBeatTime < bound then
    let rest := fillBeats bound beatDuration hbd (nextBeatTime + beatDuration) (beatIndex + 1)
    ((nextBeatTime, beatIndex % 4 == 0) :: rest.1, rest.2)
  else
    ([], nextBeatTime, beatIndex)
termination_by (⌈(bound - nextBeatTime) / beatDuration⌉).toNat
decreasing_by
  have hx : (0 : ℚ) < (bound - nextBeatTime) / beatDuration := by
    apply div_pos _ hbd
    linarith
  have harg : (bound - (nextBeatTime + beatDuration)) / beatDuration
      = (bound - nextBeatTime) / beatDuration - 1 := by
    field_simp
    ring
  rw [harg, Int.ceil_sub_one]
  have h1 : 0 < ⌈(bound - nextBeatTime) / beatDuration⌉ := Int.ceil_pos.mpr hx
  omega

/-- One scheduling pass of `scheduleBeats` (src/lib/metronome.ts lines 318-337;
the oscillator variant at lines 101-121 has the same loop structure): with
`beatDuration = 60 / bpm`, run the catch-up loop against
`now - beatDuration * 0.5`, then the fill loop against `now + LOOKAHEAD_SEC`.
Returns the clicks scheduled in this pass and the updated
(nextBeatTime, beatIndex) state. -/
def scheduleBeatsPass (now bpm : ℚ) (hbpm : 0 < bpm)
    (nextBeatTime : ℚ) (beatIndex : ℕ) : List (ℚ × Bool) × ℚ × ℕ :=
  let beatDuration := 60 / bpm
  have hbd : 0 < beatDuration := div_pos (by norm_num) hbpm
  let c := catchUpBeats (now - beatDuration * 0.5) beatDuration hbd nextBeatTime beatIndex
  fillBeats (now + LOOKAHEAD_SEC) beatDuration hbd c.1 c.2

/-! ## Helper lemmas -/

/-- The pattern walk emits `startTime + i * step` exactly at the stroke
indices, in index order (stated with a running start index `i0`). -/
lemma expectedTimesFromPatternAux_eq (t0 step : ℚ) (l : List (Option String)) :
    ∀ i0 : ℕ, expectedTimesFromPatternAux t0 step i0 l =
      ((List.range l.length).filter (fun i => isStroke (l.getD i none))).map
        (fun i : ℕ => t0 + ((i0 + i : ℕ) : ℚ) * step) := by
  induction l with
  | nil => intro i0; rfl
  | cons c rest ih =>
    intro i0
    rw [List.length_cons, List.range_succ_eq_map, List.filter_cons]
    simp only [List.getD_cons_zero, List.getD_cons_succ, List.filter_map,
      Function.comp_def]
    by_cases hc : isStroke c
    · rw [expectedTimesFromPatternAux, if_pos hc, if_pos hc, List.map_cons,
        List.map_map, ih (i0 + 1)]
      refine congrArg₂ _ (by norm_num) (List.map_congr_left ?_)
      intro a _
      simp only [Function.comp_apply]
      push_cast
      ring
    · rw [expectedTimesFromPatternAux, if_neg hc, if_neg hc, List.map_map,
        ih (i0 + 1)]
      refine List.map_congr_left ?_
      intro a _
      simp only [Function.comp_apply]
      push_cast
      ring

/-- The pattern walk produces one time per stroke cell. -/
lemma expectedTimesFromPatternAux_length (t0 step : ℚ) (l : List (Option String)) :
    ∀ i0 : ℕ, (expectedTimesFromPatternAux t0 step i0 l).length =
      (l.filter isStroke).length := by
  induction l with
  | nil => intro i0; rfl
  | cons c rest ih =>
    intro i0
    rw [expectedTimesFromPatternAux, List.filter_cons]
    by_cases hc : isStroke c
    · rw [if_pos hc, if_pos hc, List.length_cons, List.length_cons, ih]
    · rw [if_neg hc, if_neg hc, ih]

/-! ## Claims -/

/-- C9: for every bpm > 0, `getThresholdsForBpm` returns
perfectThresholdMs = 0.02 × (60000/bpm) and goodThresholdMs =
0.05 × (60000/bpm), and perfectThresholdMs ≤ goodThresholdMs. -/
theorem C9_thresholds_for_bpm (bpm : ℚ) (hbpm : 0 < bpm) :
    getThresholdsForBpm bpm =
      { perfectThresholdMs := 0.02 * (60000 / bpm)
        goodThresholdMs := 0.05 * (60000 / bpm) } ∧
    (getThresholdsForBpm bpm).perfectThresholdMs ≤
      (getThresholdsForBpm bpm).goodThresholdMs := by
  have hx : (0 : ℚ) ≤ 60000 / bpm := le_of_lt (div_pos (by norm_num) hbpm)
  refine ⟨rfl, ?_⟩
  show PERFECT_RATIO * (60000 / bpm) ≤ GOOD_RATIO * (60000 / bpm)
  unfold PERFECT_RATIO GOOD_RATIO
  exact mul_le_mul_of_nonneg_right (by norm_num) hx

theorem C9_thresholds_for_bpm_witness :
    (0 : ℚ) < 120 ∧
    (getThresholdsForBpm 120 =
      { perfectThresholdMs := 0.02 * (60000 / 120)
        goodThresholdMs := 0.05 * (60000 / 120) } ∧
    (getThresholdsForBpm 120).perfectThresholdMs ≤
      (getThresholdsForBpm 120).goodThresholdMs) :=
  ⟨by norm_num, C9_thresholds_for_bpm 120 (by norm_num)⟩

/-- C8: for every bpm > 0 and count n ≥ 1,
`getCycleDurationSeconds bpm sub n` equals the last element of
`getExpectedHitTimes t0 bpm sub n` minus t0 plus `stepSeconds bpm sub`,
for every start time t0. -/
theorem C8_cycle_duration_round_trip (t0 bpm : ℚ) (sub : Subdivision) (n : ℕ)
    (hbpm : 0 < bpm) (hn : 1 ≤ n) :
    ∃ last, (getExpectedHitTimes t0 bpm sub n).getLast? = some last ∧
      getCycleDurationSeconds bpm sub n = last - t0 + stepSeconds bpm sub := by
  obtain ⟨m, rfl⟩ : ∃ m, n = m + 1 := ⟨n - 1, by omega⟩
  refine ⟨t0 + (m : ℚ) * stepSeconds bpm sub, ?_, ?_⟩
  · rw [getExpectedHitTimes, List.range_succ, List.map_append]
    simp
  · rw [getCycleDurationSeconds]
    push_cast
    ring

theorem C8_cycle_duration_round_trip_witness :
    ((0 : ℚ) < 80 ∧ 1 ≤ 8) ∧
    (∃ last, (getExpectedHitTimes 3 80 Subdivision.eighth 8).getLast? = some last ∧
      getCycleDurationSeconds 80 Subdivision.eighth 8 =
        last - 3 + stepSeconds 80 Subdivision.eighth) :=
  ⟨⟨by norm_num, by norm_num⟩,
    C8_cycle_duration_round_trip 3 80 Subdivision.eighth 8 (by norm_num) (by norm_num)⟩

/-- C5: for every startTime, bpm > 0, subdivision and pattern,
`getExpectedHitTimesFromPattern` emits startTime + i·step exactly for each
index i whose cell is "L" or "R", in index order (rests keep their grid
slot); in particular pattern ["L", "", "R"] gives [t0, t0 + 2·step]. -/
theorem C5_from_pattern_keeps_grid (startTime bpm : ℚ) (sub : Subdivision)
    (pattern : List (Option String)) (hbpm : 0 < bpm) :
    getExpectedHitTimesFromPattern startTime bpm sub pattern =
      ((List.range pattern.length).filter
          (fun i => isStroke (pattern.getD i none))).map
        (fun i : ℕ => startTime + (i : ℚ) * stepSeconds bpm sub) ∧
    getExpectedHitTimesFromPattern startTime bpm sub
        [some "L", some "", some "R"] =
      [startTime, startTime + 2 * stepSeconds bpm sub] := by
  constructor
  · rw [getExpectedHitTimesFromPattern, expectedTimesFromPatternAux_eq]
    simp
  · rw [getExpectedHitTimesFromPattern]
    norm_num [expectedTimesFromPatternAux, isStroke]
    simp

theorem C5_from_pattern_keeps_grid_witness :
    (0 : ℚ) < 90 ∧
    (getExpectedHitTimesFromPattern 2 90 Subdivision.sixteenth
        [some "L", some "", some "R"] =
      ((List.range ([some "L", some "", some "R"] : List (Option String)).length).filter
          (fun i => isStroke (([some "L", some "", some "R"] : List (Option String)).getD i none))).map
        (fun i : ℕ => 2 + (i : ℚ) * stepSeconds 90 Subdivision.sixteenth) ∧
    getExpectedHitTimesFromPattern 2 90 Subdivision.sixteenth
        [some "L", some "", some "R"] =
      [2, 2 + 2 * stepSeconds 90 Subdivision.sixteenth]) :=
  ⟨by norm_num,
    C5_from_pattern_keeps_grid 2 90 Subdivision.sixteenth
      [some "L", some "", some "R"] (by norm_num)⟩

/-- C1: for tapTimes [0.04, 2.06] and expectedTimes [0, 1, 2] with the
default thresholds, `scoreSession` returns exactly three results:
index 0 tap 0.04 offset +40ms Perfect, index 1 Miss with no tap,
index 2 tap 2.06 offset +60ms Good. -/
theorem C1_scoreSession_example :
    scoreSession [0.04, 2.06] [0, 1, 2] DEFAULT_THRESHOLDS =
      [⟨0, 0, some 0.04, some 40, .perfect⟩,
       ⟨1, 1, none, none, .miss⟩,
       ⟨2, 2, some 2.06, some 60, .good⟩] := by
  have hb : buildPairs [0.04, 2.06] [0, 1, 2] = [⟨0, 0, 40⟩, ⟨1, 2, 60⟩] := by
    norm_num [buildPairs, buildPairsOuter, buildPairsInner, ASSIGNMENT_WINDOW_MS,
      abs_of_nonneg, abs_of_nonpos]
  have hs : sortPairs [⟨0, 0, 40⟩, ⟨1, 2, 60⟩] = [⟨0, 0, 40⟩, ⟨1, 2, 60⟩] := by
    norm_num [sortPairs, List.insertionSort, List.orderedInsert]
  have hg : greedyAssign [⟨0, 0, 40⟩, ⟨1, 2, 60⟩] [] [] = [(2, 1), (0, 0)] := by
    norm_num [greedyAssign, lookupAssoc]
  simp only [scoreSession]
  rw [hb, hs, hg]
  norm_num [scoreLoop, lookupAssoc, classifyOffset, DEFAULT_THRESHOLDS,
    abs_of_nonneg, abs_of_nonpos]

lemma lookupAssoc_eq_none_iff (k : ℕ) :
    ∀ M : List (ℕ × ℕ), lookupAssoc k M = none ↔ k ∉ M.map Prod.fst := by
  intro M
  induction M with
  | nil => simp [lookupAssoc]
  | cons kv rest ih =>
    obtain ⟨k', v⟩ := kv
    by_cases hk : k' = k
    · subst hk
      simp [lookupAssoc]
    · simp only [lookupAssoc, if_neg hk, List.map_cons, List.mem_cons, ih]
      constructor
      · intro h hmem
        rcases hmem with h1 | h1
        · exact hk h1.symm
        · exact h h1
      · intro h
        exact fun h1 => h (Or.inr h1)

lemma lookupAssoc_mem {k v : ℕ} :
    ∀ {M : List (ℕ × ℕ)}, lookupAssoc k M = some v → (k, v) ∈ M := by
  intro M
  induction M with
  | nil => intro h; simp [lookupAssoc] at h
  | cons kv rest ih =>
    obtain ⟨k', v'⟩ := kv
    intro h
    by_cases hk : k' = k
    · subst hk
      rw [lookupAssoc, if_pos rfl] at h
      injection h with h
      subst h
      exact List.mem_cons_self _ _
    · rw [lookupAssoc, if_neg hk] at h
      exact List.mem_cons_of_mem _ (ih h)

/-- The greedy loop preserves: every assigned tap is recorded in
`tapAssigned`, and the keys and values of the map stay pairwise distinct. -/
lemma greedyAssign_nodup :
    ∀ (l : List Pair) (A : List ℕ) (M : List (ℕ × ℕ)),
      (∀ v ∈ M.map Prod.snd, v ∈ A) →
      (M.map Prod.fst).Nodup →
      (M.map Prod.snd).Nodup →
      ((greedyAssign l A M).map Prod.fst).Nodup ∧
        ((greedyAssign l A M).map Prod.snd).Nodup := by
  intro l
  induction l with
  | nil => intro A M hsub h1 h2; exact ⟨h1, h2⟩
  | cons p rest ih =>
    intro A M hsub h1 h2
    rw [greedyAssign]
    by_cases hc : p.tapIdx ∈ A ∨ (lookupAssoc p.expectedIdx M).isSome
    · rw [if_pos hc]
      exact ih A M hsub h1 h2
    · rw [if_neg hc]
      push_neg at hc
      obtain ⟨htap, hexp⟩ := hc
      have hexp' : lookupAssoc p.expectedIdx M = none :=
        Option.not_isSome_iff_eq_none.mp hexp
      apply ih
      · intro v hv
        rw [List.map_cons] at hv
        rcases List.mem_cons.mp hv with h | h
        · exact List.mem_cons.mpr (Or.inl h)
        · exact List.mem_cons.mpr (Or.inr (hsub v h))
      · rw [List.map_cons]
        refine List.nodup_cons.mpr ⟨?_, h1⟩
        exact (lookupAssoc_eq_none_iff _ _).mp hexp'
      · rw [List.map_cons]
        refine List.nodup_cons.mpr ⟨?_, h2⟩
        intro hmem
        exact htap (hsub _ hmem)

/-- C4: the scorer assigns greedily by ascending distance with each tap and
each expected index used at most once; with expected times {0, 0.05} and the
single tap 0.04, the tap goes to 0.05 (distance 10 ms) and the expected note
at 0 scores Miss. -/
theorem C4_greedy_by_distance :
    (∀ tapTimes expectedTimes : List ℚ,
      ((greedyAssign (sortPairs (buildPairs tapTimes expectedTimes)) [] []).map
          Prod.fst).Nodup ∧
      ((greedyAssign (sortPairs (buildPairs tapTimes expectedTimes)) [] []).map
          Prod.snd).Nodup) ∧
    scoreSession [0.04] [0, 0.05] DEFAULT_THRESHOLDS =
      [⟨0, 0, none, none, .miss⟩,
       ⟨1, 0.05, some 0.04, some (-10), .perfect⟩] := by
  constructor
  · intro tapTimes expectedTimes
    exact greedyAssign_nodup _ [] [] (by simp) (by simp) (by simp)
  · have hb : buildPairs [0.04] [0, 0.05] = [⟨0, 0, 40⟩, ⟨0, 1, 10⟩] := by
      norm_num [buildPairs, buildPairsOuter, buildPairsInner, ASSIGNMENT_WINDOW_MS,
        abs_of_nonneg, abs_of_nonpos]
    have hs : sortPairs [⟨0, 0, 40⟩, ⟨0, 1, 10⟩] = [⟨0, 1, 10⟩, ⟨0, 0, 40⟩] := by
      norm_num [sortPairs, List.insertionSort, List.orderedInsert]
    have hg : greedyAssign [⟨0, 1, 10⟩, ⟨0, 0, 40⟩] [] [] = [(1, 0)] := by
      norm_num [greedyAssign, lookupAssoc]
    simp only [scoreSession]
    rw [hb, hs, hg]
    norm_num [scoreLoop, lookupAssoc, classifyOffset, DEFAULT_THRESHOLDS,
      abs_of_nonneg, abs_of_nonpos]

/-- C2 counterexample: in the pattern ["L", "X", "R"], which contains no
empty-string or null cell, the unrecognized cell "X" is NOT treated as a
rest: `getExpectedHitTimesForRudiment` emits three expected times (one for
the "X" cell at grid index 1) although the pattern has only two strokes. -/
theorem C2_counterexample :
    getExpectedHitTimesForRudiment 0 120
        ⟨.quarter, [some "L", some "X", some "R"]⟩ = [0, 1/2, 1] ∧
    (getExpectedHitTimesForRudiment 0 120
        ⟨.quarter, [some "L", some "X", some "R"]⟩).length = 3 ∧
    (([some "L", some "X", some "R"] : List (Option String)).filter isStroke).length = 2 := by
  have h : getExpectedHitTimesForRudiment 0 120
      ⟨.quarter, [some "L", some "X", some "R"]⟩ = [0, 1/2, 1] := by
    norm_num [getExpectedHitTimesForRudiment, getExpectedHitTimes, isRestCell,
      stepSeconds, NOTES_PER_BEAT, List.range_succ]
    intro hx
    simp at hx
  refine ⟨h, by rw [h]; rfl, by decide⟩

/-- C2 amended: a cell that is not "L"/"R" is treated as a rest (no expected
time, no error) only when the pattern also contains at least one
empty-string or null cell; a pattern with no such cell gets one expected
time per cell, unrecognized cells included. -/
theorem C2_amended_rest_handling (startTime bpm : ℚ) (r : RudimentShape) :
    (r.pattern.any isRestCell = true →
      getExpectedHitTimesForRudiment startTime bpm r =
        ((List.range r.pattern.length).filter
            (fun i => isStroke (r.pattern.getD i none))).map
          (fun i : ℕ => startTime + (i : ℚ) * stepSeconds bpm r.subdivision)) ∧
    (r.pattern.any isRestCell = false →
      getExpectedHitTimesForRudiment startTime bpm r =
        getExpectedHitTimes startTime bpm r.subdivision r.pattern.length) := by
  constructor
  · intro h
    rw [getExpectedHitTimesForRudiment, if_pos h, getExpectedHitTimesFromPattern,
      expectedTimesFromPatternAux_eq]
    simp
  · intro h
    rw [getExpectedHitTimesForRudiment, if_neg (by simp [h])]

theorem C2_amended_rest_handling_witness :
    (([some "L", some "", some "R"] : List (Option String)).any isRestCell = true ∧
      getExpectedHitTimesForRudiment 0 120
          ⟨.quarter, [some "L", some "", some "R"]⟩ =
        ((List.range ([some "L", some "", some "R"] : List (Option String)).length).filter
            (fun i => isStroke (([some "L", some "", some "R"] : List (Option String)).getD i none))).map
          (fun i : ℕ => 0 + (i : ℚ) * stepSeconds 120 Subdivision.quarter)) ∧
    (([some "L", some "R"] : List (Option String)).any isRestCell = false ∧
      getExpectedHitTimesForRudiment 0 120 ⟨.quarter, [some "L", some "R"]⟩ =
        getExpectedHitTimes 0 120 Subdivision.quarter
          ([some "L", some "R"] : List (Option String)).length) :=
  ⟨⟨by decide,
      (C2_amended_rest_handling 0 120 ⟨.quarter, [some "L", some "", some "R"]⟩).1 (by decide)⟩,
    ⟨by decide,
      (C2_amended_rest_handling 0 120 ⟨.quarter, [some "L", some "R"]⟩).2 (by decide)⟩⟩

/-- Under the cell hypothesis of C6, one rudiment cycle produces one
expected time per stroke cell. -/
lemma forRudiment_length (t0 bpm : ℚ) (r : RudimentShape)
    (hcells : ∀ c ∈ r.pattern, c = some "L" ∨ c = some "R" ∨ c = some "") :
    (getExpectedHitTimesForRudiment t0 bpm r).length =
      (r.pattern.filter isStroke).length := by
  rw [getExpectedHitTimesForRudiment]
  by_cases h : r.pattern.any isRestCell = true
  · rw [if_pos h, getExpectedHitTimesFromPattern, expectedTimesFromPatternAux_length]
  · rw [if_neg h, getExpectedHitTimes, List.length_map, List.length_range]
    have hall : ∀ c ∈ r.pattern, isStroke c := by
      intro c hc
      rcases hcells c hc with h1 | h1 | h1 <;> subst h1
      · rfl
      · rfl
      · exact absurd (List.any_eq_true.mpr ⟨some "", hc, rfl⟩) h
    rw [List.filter_eq_self.mpr hall]

/-- C6: for a pattern whose cells are all in {"L", "R", ""}, the cycle
generator returns (stroke count) × cycleCount times, and equals the
concatenation over cycles of the single-cycle times started at
startTime + c · cycleDuration. -/
theorem C6_cycle_concatenation (t0 bpm : ℚ) (r : RudimentShape) (cycleCount : ℕ)
    (hbpm : 0 < bpm)
    (hcells : ∀ c ∈ r.pattern, c = some "L" ∨ c = some "R" ∨ c = some "") :
    (getExpectedHitTimesForRudimentCycles t0 bpm r cycleCount).length =
      (r.pattern.filter isStroke).length * cycleCount ∧
    getExpectedHitTimesForRudimentCycles t0 bpm r cycleCount =
      (List.range cycleCount).flatMap
        (fun c : ℕ => getExpectedHitTimesForRudiment
          (t0 + (c : ℚ) * getCycleDurationSeconds bpm r.subdivision r.pattern.length)
          bpm r) := by
  refine ⟨?_, rfl⟩
  rw [getExpectedHitTimesForRudimentCycles, List.length_flatMap]
  simp only [Function.comp_def]
  rw [List.map_congr_left
    (fun (c : ℕ) (_ : c ∈ List.range cycleCount) => forRudiment_length
      (t0 + (c : ℚ) * getCycleDurationSeconds bpm r.subdivision r.pattern.length)
      bpm r hcells)]
  rw [List.map_const', List.sum_replicate, List.length_range, smul_eq_mul,
    Nat.mul_comm]

theorem C6_cycle_concatenation_witness :
    ((0 : ℚ) < 120 ∧
      (∀ c ∈ ([some "L", some "", some "R"] : List (Option String)),
        c = some "L" ∨ c = some "R" ∨ c = some "")) ∧
    ((getExpectedHitTimesForRudimentCycles 0 120
        ⟨.sixteenth, [some "L", some "", some "R"]⟩ 2).length =
      (([some "L", some "", some "R"] : List (Option String)).filter isStroke).length * 2 ∧
    getExpectedHitTimesForRudimentCycles 0 120
        ⟨.sixteenth, [some "L", some "", some "R"]⟩ 2 =
      (List.range 2).flatMap
        (fun c : ℕ => getExpectedHitTimesForRudiment
          (0 + (c : ℚ) * getCycleDurationSeconds 120 Subdivision.sixteenth
            ([some "L", some "", some "R"] : List (Option String)).length)
          120 ⟨.sixteenth, [some "L", some "", some "R"]⟩)) :=
  ⟨⟨by norm_num, by decide⟩,
    C6_cycle_concatenation 0 120 ⟨.sixteenth, [some "L", some "", some "R"]⟩ 2
      (by norm_num) (by decide)⟩

/-- Every pair produced by the inner pair-building loop records a
within-window distance to the expected time at its (offset) index. -/
lemma buildPairsInner_mem (tapIdx : ℕ) (tap : ℚ) (exps : List ℚ) :
    ∀ (e0 : ℕ) (p : Pair), p ∈ buildPairsInner tapIdx tap e0 exps →
      p.tapIdx = tapIdx ∧ ∃ k, k < exps.length ∧ p.expectedIdx = e0 + k ∧
        p.distanceMs = |tap - exps.getD k 0| * 1000 ∧
        |tap - exps.getD k 0| ≤ ASSIGNMENT_WINDOW_MS / 1000 := by
  induction exps with
  | nil => intro e0 p hp; simp [buildPairsInner] at hp
  | cons x rest ih =>
    intro e0 p hp
    rw [buildPairsInner] at hp
    by_cases hc : |tap - x| ≤ ASSIGNMENT_WINDOW_MS / 1000
    · rw [if_pos hc] at hp
      rcases List.mem_cons.mp hp with h | h
      · subst h
        exact ⟨rfl, 0, by simp, by simp, by simp, by simpa using hc⟩
      · obtain ⟨h1, k, hk, h2, h3, h4⟩ := ih (e0 + 1) p h
        refine ⟨h1, k + 1, by simpa using hk, by omega, ?_, ?_⟩
        · simpa using h3
        · simpa using h4
    · rw [if_neg hc] at hp
      obtain ⟨h1, k, hk, h2, h3, h4⟩ := ih (e0 + 1) p hp
      refine ⟨h1, k + 1, by simpa using hk, by omega, ?_, ?_⟩
      · simpa using h3
      · simpa using h4

/-- Every pair produced by the outer pair-building loop comes from the
inner loop run on the tap at its (offset) index. -/
lemma buildPairsOuter_mem (exps : List ℚ) (taps : List ℚ) :
    ∀ (t0 : ℕ) (p : Pair), p ∈ buildPairsOuter exps t0 taps →
      ∃ j, j < taps.length ∧ p.tapIdx = t0 + j ∧
        p ∈ buildPairsInner (t0 + j) (taps.getD j 0) 0 exps := by
  induction taps with
  | nil => intro t0 p hp; simp [buildPairsOuter] at hp
  | cons x rest ih =>
    intro t0 p hp
    rw [buildPairsOuter] at hp
    rcases List.mem_append.mp hp with h | h
    · exact ⟨0, by simp, by simpa using (buildPairsInner_mem t0 x exps 0 p h).1,
        by simpa using h⟩
    · obtain ⟨j, hj, h1, h2⟩ := ih (t0 + 1) p h
      refine ⟨j + 1, by simpa using hj, by omega, ?_⟩
      have : t0 + (j + 1) = t0 + 1 + j := by omega
      rw [this]
      simpa using h2

/-- Every candidate pair of `scoreSession` is within the assignment window
of the tap and expected values it indexes. -/
lemma buildPairs_mem (taps exps : List ℚ) (p : Pair)
    (hp : p ∈ buildPairs taps exps) :
    p.distanceMs = |taps.getD p.tapIdx 0 - exps.getD p.expectedIdx 0| * 1000 ∧
    |taps.getD p.tapIdx 0 - exps.getD p.expectedIdx 0| ≤
      ASSIGNMENT_WINDOW_MS / 1000 := by
  obtain ⟨j, hj, h1, h2⟩ := buildPairsOuter_mem exps taps 0 p hp
  have h1' : p.tapIdx = j := by omega
  obtain ⟨_, k, hk, h3, h4, h5⟩ := buildPairsInner_mem (0 + j) (taps.getD j 0) exps 0 p h2
  have h3' : p.expectedIdx = k := by omega
  rw [h1', h3']
  exact ⟨h4, h5⟩

/-- The greedy loop only ever adds assignments that appear in its input
pair list. -/
lemma greedyAssign_mem_src (l : List Pair) :
    ∀ (A : List ℕ) (M : List (ℕ × ℕ)) (e t : ℕ),
      (e, t) ∈ greedyAssign l A M →
      (e, t) ∈ M ∨ ∃ p ∈ l, p.expectedIdx = e ∧ p.tapIdx = t := by
  induction l with
  | nil =>
    intro A M e t h
    rw [greedyAssign] at h
    exact Or.inl h
  | cons p rest ih =>
    intro A M e t h
    rw [greedyAssign] at h
    by_cases hc : p.tapIdx ∈ A ∨ (lookupAssoc p.expectedIdx M).isSome
    · rw [if_pos hc] at h
      rcases ih A M e t h with h1 | ⟨q, hq, hqe⟩
      · exact Or.inl h1
      · exact Or.inr ⟨q, List.mem_cons_of_mem _ hq, hqe⟩
    · rw [if_neg hc] at h
      rcases ih _ _ e t h with h1 | ⟨q, hq, hqe⟩
      · rcases List.mem_cons.mp h1 with h2 | h2
        · obtain ⟨he, ht⟩ := Prod.mk.injEq .. ▸ h2
          exact Or.inr ⟨p, List.mem_cons_self _ _, he.symm, ht.symm⟩
        · exact Or.inl h2
      · exact Or.inr ⟨q, List.mem_cons_of_mem _ hq, hqe⟩

/-- Shape of every result emitted by the result-building loop: the index
and expected time track the walked list, and the tap/offset/accuracy
fields are determined by the assignment map. -/
lemma scoreLoop_mem (taps : List ℚ) (M : List (ℕ × ℕ))
    (th : ScoringThresholds) (exps : List ℚ) :
    ∀ (i0 : ℕ) (r : HitResult), r ∈ scoreLoop taps M th i0 exps →
      (∃ k, k < exps.length ∧ r.index = i0 + k ∧ r.expectedTime = exps.getD k 0) ∧
      ((lookupAssoc r.index M = none ∧ r.tapTime = none ∧ r.offsetMs = none ∧
          r.accuracy = .miss) ∨
        (∃ tapIdx, lookupAssoc r.index M = some tapIdx ∧
          r.tapTime = some (taps.getD tapIdx 0) ∧
          r.offsetMs = some ((taps.getD tapIdx 0 - r.expectedTime) * 1000) ∧
          r.accuracy =
            classifyOffset ((taps.getD tapIdx 0 - r.expectedTime) * 1000) th)) := by
  induction exps with
  | nil => intro i0 r hr; simp [scoreLoop] at hr
  | cons x rest ih =>
    intro i0 r hr
    rw [scoreLoop] at hr
    cases hl : lookupAssoc i0 M with
    | none =>
      rw [hl] at hr
      rcases List.mem_cons.mp hr with h | h
      · subst h
        exact ⟨⟨0, by simp, by simp, by simp⟩, Or.inl ⟨hl, rfl, rfl, rfl⟩⟩
      · obtain ⟨⟨k, hk, h1, h2⟩, h3⟩ := ih (i0 + 1) r h
        exact ⟨⟨k + 1, by simpa using hk, by omega, by simpa using h2⟩, h3⟩
    | some tapIdx =>
      rw [hl] at hr
      rcases List.mem_cons.mp hr with h | h
      · subst h
        exact ⟨⟨0, by simp, by simp, by simp⟩, Or.inr ⟨tapIdx, hl, rfl, rfl, rfl⟩⟩
      · obtain ⟨⟨k, hk, h1, h2⟩, h3⟩ := ih (i0 + 1) r h
        exact ⟨⟨k + 1, by simpa using hk, by omega, by simpa using h2⟩, h3⟩

/-- C3: a tap farther than the 150 ms assignment window from every expected
time is never assigned (every non-null tap in a result is within the window
of that result's expected time); every expected note with no assigned tap
yields Miss with null tap and offset — even when unmatched taps exist, as
in the concrete run with one tap 200 ms away. -/
theorem C3_assignment_window (taps exps : List ℚ) (th : ScoringThresholds) :
    (∀ (r : HitResult) (t : ℚ),
      r ∈ scoreSession taps exps th → r.tapTime = some t →
      |t - r.expectedTime| ≤ ASSIGNMENT_WINDOW_MS / 1000) ∧
    (∀ r : HitResult,
      r ∈ scoreSession taps exps th → r.tapTime = none →
      r.offsetMs = none ∧ r.accuracy = .miss) ∧
    scoreSession [0.2] [0] DEFAULT_THRESHOLDS = [⟨0, 0, none, none, .miss⟩] := by
  refine ⟨?_, ?_, ?_⟩
  · intro r t hr htap
    simp only [scoreSession] at hr
    obtain ⟨⟨k, hk, hidx, hexp⟩, hcase⟩ := scoreLoop_mem taps _ th exps 0 r hr
    rcases hcase with ⟨_, h2, _, _⟩ | ⟨tapIdx, hl, h2, h3, h4⟩
    · rw [htap] at h2
      exact Option.noConfusion h2
    · rw [htap] at h2
      have ht : t = taps.getD tapIdx 0 := Option.some.inj h2
      have hmem := lookupAssoc_mem hl
      rcases greedyAssign_mem_src _ _ _ _ _ hmem with h5 | ⟨p, hp, hpe, hpt⟩
      · simp at h5
      · rw [sortPairs] at hp
        have hp' : p ∈ buildPairs taps exps :=
          (List.perm_insertionSort _ _).mem_iff.mp hp
        obtain ⟨_, hle⟩ := buildPairs_mem taps exps p hp'
        have hpe' : p.expectedIdx = k := by omega
        rw [ht, hexp]
        calc |taps.getD tapIdx 0 - exps.getD k 0|
            = |taps.getD p.tapIdx 0 - exps.getD p.expectedIdx 0| := by rw [hpt, hpe']
          _ ≤ ASSIGNMENT_WINDOW_MS / 1000 := hle
  · intro r hr htap
    simp only [scoreSession] at hr
    obtain ⟨_, hcase⟩ := scoreLoop_mem taps _ th exps 0 r hr
    rcases hcase with ⟨_, _, h2, h3⟩ | ⟨tapIdx, _, h2, _, _⟩
    · exact ⟨h2, h3⟩
    · rw [htap] at h2
      exact Option.noConfusion h2
  · have hb : buildPairs [0.2] [0] = [] := by
      norm_num [buildPairs, buildPairsOuter, buildPairsInner, ASSIGNMENT_WINDOW_MS,
        abs_of_nonneg, abs_of_nonpos]
    simp only [scoreSession]
    rw [hb]
    norm_num [sortPairs, List.insertionSort, greedyAssign, scoreLoop, lookupAssoc]

theorem C3_assignment_window_witness :
    ((⟨0, 0, none, none, .miss⟩ : HitResult) ∈
        scoreSession [0.2] [0] DEFAULT_THRESHOLDS ∧
      (⟨0, 0, none, none, .miss⟩ : HitResult).tapTime = none) ∧
    ((⟨0, 0, none, none, .miss⟩ : HitResult).offsetMs = none ∧
      (⟨0, 0, none, none, .miss⟩ : HitResult).accuracy = .miss) := by
  have hmem : (⟨0, 0, none, none, .miss⟩ : HitResult) ∈
      scoreSession [0.2] [0] DEFAULT_THRESHOLDS := by
    rw [(C3_assignment_window [0.2] [0] DEFAULT_THRESHOLDS).2.2]
    exact List.mem_singleton_self _
  exact ⟨⟨hmem, rfl⟩,
    (C3_assignment_window [0.2] [0] DEFAULT_THRESHOLDS).2.1 _ hmem rfl⟩

/-- C10: in every result, tapTime is null iff offsetMs is null; a non-null
tap has offsetMs = (tapTime − expectedTime) × 1000; and Miss does not imply
a null tap — a tap inside the assignment window but outside the good
threshold yields Miss with non-null tap and offset. -/
theorem C10_tap_offset_invariant :
    (∀ (taps exps : List ℚ) (th : ScoringThresholds) (r : HitResult),
      r ∈ scoreSession taps exps th → (r.tapTime = none ↔ r.offsetMs = none)) ∧
    (∀ (taps exps : List ℚ) (th : ScoringThresholds) (r : HitResult) (t : ℚ),
      r ∈ scoreSession taps exps th → r.tapTime = some t →
      r.offsetMs = some ((t - r.expectedTime) * 1000)) ∧
    scoreSession [0.12] [0] DEFAULT_THRESHOLDS =
      [⟨0, 0, some 0.12, some 120, .miss⟩] := by
  refine ⟨?_, ?_, ?_⟩
  · intro taps exps th r hr
    simp only [scoreSession] at hr
    obtain ⟨_, hcase⟩ := scoreLoop_mem taps _ th exps 0 r hr
    rcases hcase with ⟨_, h2, h3, _⟩ | ⟨tapIdx, _, h2, h3, _⟩
    · rw [h2, h3]
    · rw [h2, h3]
      simp
  · intro taps exps th r t hr htap
    simp only [scoreSession] at hr
    obtain ⟨_, hcase⟩ := scoreLoop_mem taps _ th exps 0 r hr
    rcases hcase with ⟨_, h2, _, _⟩ | ⟨tapIdx, _, h2, h3, _⟩
    · rw [htap] at h2
      exact Option.noConfusion h2
    · rw [htap] at h2
      rw [h3, Option.some.inj h2]
  · have hb : buildPairs [0.12] [0] = [⟨0, 0, 120⟩] := by
      norm_num [buildPairs, buildPairsOuter, buildPairsInner, ASSIGNMENT_WINDOW_MS,
        abs_of_nonneg, abs_of_nonpos]
    have hs : sortPairs [⟨0, 0, 120⟩] = [⟨0, 0, 120⟩] := by
      norm_num [sortPairs, List.insertionSort, List.orderedInsert]
    have hg : greedyAssign [⟨0, 0, 120⟩] [] [] = [(0, 0)] := by
      norm_num [greedyAssign, lookupAssoc]
    simp only [scoreSession]
    rw [hb, hs, hg]
    norm_num [scoreLoop, lookupAssoc, classifyOffset, DEFAULT_THRESHOLDS,
      abs_of_nonneg, abs_of_nonpos]

theorem C10_tap_offset_invariant_witness :
    ((⟨0, 0, some 0.12, some 120, .miss⟩ : HitResult) ∈
        scoreSession [0.12] [0] DEFAULT_THRESHOLDS ∧
      ((⟨0, 0, some 0.12, some 120, .miss⟩ : HitResult).tapTime = none ↔
        (⟨0, 0, some 0.12, some 120, .miss⟩ : HitResult).offsetMs = none)) ∧
    ((⟨0, 0, some 0.12, some 120, .miss⟩ : HitResult).tapTime = some 0.12 ∧
      (⟨0, 0, some 0.12, some 120, .miss⟩ : HitResult).offsetMs =
        some ((0.12 - (⟨0, 0, some 0.12, some 120, .miss⟩ : HitResult).expectedTime) * 1000)) := by
  have hmem : (⟨0, 0, some 0.12, some 120, .miss⟩ : HitResult) ∈
      scoreSession [0.12] [0] DEFAULT_THRESHOLDS := by
    rw [C10_tap_offset_invariant.2.2]
    exact List.mem_singleton_self _
  exact ⟨⟨hmem, C10_tap_offset_invariant.1 _ _ _ _ hmem⟩,
    rfl, C10_tap_offset_invariant.2.1 _ _ _ _ 0.12 hmem rfl⟩

/-- The catch-up loop advances nextBeatTime and beatIndex in lockstep:
some k beats are skipped, each advancing the time by one beat duration and
the index by one, with no click emitted (the loop produces none). -/
lemma catchUpBeats_adds (bound bd : ℚ) (hbd : 0 < bd) (t : ℚ) (i : ℕ) :
    ∃ k : ℕ, catchUpBeats bound bd hbd t i = (t + (k : ℚ) * bd, i + k) := by
  induction t, i using catchUpBeats.induct bound bd hbd with
  | case1 t i hlt ih =>
    obtain ⟨k, hk⟩ := ih
    refine ⟨k + 1, ?_⟩
    rw [catchUpBeats, if_pos hlt, hk, Prod.mk.injEq]
    refine ⟨by push_cast; ring, by omega⟩
  | case2 t i hge =>
    refine ⟨0, ?_⟩
    rw [catchUpBeats, if_neg hge]
    norm_num

/-- On exit of the catch-up loop, nextBeatTime has reached the catch-up
bound (`now - beatDuration * 0.5`). -/
lemma catchUpBeats_fst_ge (bound bd : ℚ) (hbd : 0 < bd) (t : ℚ) (i : ℕ) :
    bound ≤ (catchUpBeats bound bd hbd t i).1 := by
  induction t, i using catchUpBeats.induct bound bd hbd with
  | case1 t i hlt ih =>
    rw [catchUpBeats, if_pos hlt]
    exact ih
  | case2 t i hge =>
    rw [catchUpBeats, if_neg hge]
    exact le_of_not_lt hge

/-- Every click emitted by the fill loop is scheduled in [t, bound), and
the emitted click times are strictly increasing. -/
lemma fillBeats_clicks (bound bd : ℚ) (hbd : 0 < bd) (t : ℚ) (i : ℕ) :
    (∀ c ∈ (fillBeats bound bd hbd t i).1, t ≤ c.1 ∧ c.1 < bound) ∧
    ((fillBeats bound bd hbd t i).1.map Prod.fst).Pairwise (· < ·) := by
  induction t, i using fillBeats.induct bound bd hbd with
  | case1 t i hlt ih =>
    obtain ⟨ih1, ih2⟩ := ih
    rw [fillBeats, if_pos hlt]
    dsimp only
    constructor
    · intro c hc
      rcases List.mem_cons.mp hc with h | h
      · subst h
        exact ⟨le_refl t, hlt⟩
      · obtain ⟨h1, h2⟩ := ih1 c h
        exact ⟨by linarith, h2⟩
    · rw [List.map_cons]
      refine List.pairwise_cons.mpr ⟨?_, ih2⟩
      intro y hy
      obtain ⟨c, hc, rfl⟩ := List.mem_map.mp hy
      have h1 := (ih1 c hc).1
      linarith
  | case2 t i hge =>
    rw [fillBeats, if_neg hge]
    exact ⟨by simp, by simp⟩

/-- C7: in one scheduling pass with bpm > 0 (beatDuration = 60/bpm), beats
before now − beatDuration/2 are skipped by advancing nextBeatTime and
beatIndex in lockstep without emitting clicks; every emitted click is
scheduled in [now − beatDuration/2, now + 0.2); and the emitted click
times are strictly increasing. -/
theorem C7_scheduling_pass (now bpm : ℚ) (hbpm : 0 < bpm)
    (nextBeatTime : ℚ) (beatIndex : ℕ) :
    (∃ k : ℕ, catchUpBeats (now - (60 / bpm) * 0.5) (60 / bpm)
        (div_pos (by norm_num) hbpm) nextBeatTime beatIndex =
      (nextBeatTime + (k : ℚ) * (60 / bpm), beatIndex + k)) ∧
    (∀ c ∈ (scheduleBeatsPass now bpm hbpm nextBeatTime beatIndex).1,
      now - (60 / bpm) * 0.5 ≤ c.1 ∧ c.1 < now + LOOKAHEAD_SEC) ∧
    ((scheduleBeatsPass now bpm hbpm nextBeatTime beatIndex).1.map
      Prod.fst).Pairwise (· < ·) := by
  have hbd : (0 : ℚ) < 60 / bpm := div_pos (by norm_num) hbpm
  refine ⟨catchUpBeats_adds _ _ _ _ _, ?_, ?_⟩
  · intro c hc
    have h2 := catchUpBeats_fst_ge (now - (60 / bpm) * 0.5) (60 / bpm) hbd
      nextBeatTime beatIndex
    simp only [scheduleBeatsPass] at hc
    obtain ⟨h3, h4⟩ := (fillBeats_clicks (now + LOOKAHEAD_SEC) (60 / bpm) hbd _ _).1 c hc
    refine ⟨le_trans h2 ?_, h4⟩
    exact h3
  · have h5 := (fillBeats_clicks (now + LOOKAHEAD_SEC) (60 / bpm) hbd
      (catchUpBeats (now - (60 / bpm) * 0.5) (60 / bpm) hbd nextBeatTime beatIndex).1
      (catchUpBeats (now - (60 / bpm) * 0.5) (60 / bpm) hbd nextBeatTime beatIndex).2).2
    simpa only [scheduleBeatsPass] using h5

theorem C7_scheduling_pass_witness :
    (0 : ℚ) < 60 ∧
    ((∃ k : ℕ, catchUpBeats (1 - (60 / 60) * 0.5) (60 / 60)
        (div_pos (by norm_num) (by norm_num)) 0 0 =
      (0 + (k : ℚ) * (60 / 60), 0 + k)) ∧
    (∀ c ∈ (scheduleBeatsPass 1 60 (by norm_num) 0 0).1,
      1 - (60 / 60) * 0.5 ≤ c.1 ∧ c.1 < 1 + LOOKAHEAD_SEC) ∧
    ((scheduleBeatsPass 1 60 (by norm_num) 0 0).1.map
      Prod.fst).Pairwise (· < ·)) :=
  ⟨by norm_num, C7_scheduling_pass 1 60 (by norm_num) 0 0⟩

end Rhythm
